import Mathlib

/-!
Verification of the TDS Virtual TA question-answering pipeline
(`api/virtual_ta/unified.py` and `api/virtual_ta/views.py`).

Python strings are modelled as Lean `String` (a wrapper around `List Char`);
Python `str` operations used by the code (`strip`, `lower`, `split`, `title`,
slicing, substring `in`) are defined below on `List Char` so that every
definition is executable and kernel-reducible.  External collaborators
(the base64 decoder, the Django cache, the Gemini model call, the iteration
order of a Python `set`) are passed in as explicit parameters; the pure
control flow of the source is translated directly.
-/

set_option maxRecDepth 10000

namespace VirtualTA

/-- Python's `\s` / `str.strip` whitespace class (ASCII). -/
def isPySpace (c : Char) : Bool :=
  c == ' ' || c == '\t' || c == '\n' || c == '\r' || c == '\x0b' || c == '\x0c'

/-- `l.dropWhile isPySpace`: Python `lstrip`. -/
def stripL (l : List Char) : List Char := l.dropWhile isPySpace

/-- Python `rstrip` on a list of characters. -/
def stripR (l : List Char) : List Char := ((l.reverse.dropWhile isPySpace)).reverse

/-- Python `str.strip()`. -/
def pyStrip (l : List Char) : List Char := stripR (stripL l)

/-- Python `str.strip()` at the `String` level. -/
def pyStripStr (s : String) : String := String.mk (pyStrip s.data)

/-- One pass of `re.sub(r'\s+', ' ', ·)`: each maximal run of whitespace
becomes a single space.  The flag records whether the previous character
was part of a whitespace run. -/
def collapseAux : Bool → List Char → List Char
  | _, [] => []
  | inRun, c :: rest =>
    if isPySpace c then
      if inRun then collapseAux true rest
      else ' ' :: collapseAux true rest
    else c :: collapseAux false rest

/-- `re.sub(r'\s+', ' ', text.strip())` from `_clean_text`. -/
def normWS (l : List Char) : List Char := collapseAux false (pyStrip l)

/-- Contiguous-sublist test (Python `in` on `str` and `bytes`). -/
def isInfixOfCL {α : Type} [DecidableEq α] (needle : List α) : List α → Bool
  | [] => decide (needle = [])
  | c :: cs => needle.isPrefixOf (c :: cs) || isInfixOfCL needle cs

/-- Python substring test `needle in hay` (on `str`). -/
def strContains (needle hay : String) : Bool := isInfixOfCL needle.data hay.data

/-- Python `str.lower()` (ASCII letters; the embedded keywords and
questions under scrutiny are ASCII). -/
def strLower (s : String) : String := String.mk (s.data.map Char.toLower)

/-- `any(w in hay for w in words)`, as used by the classification chains. -/
def anyContains (words : List String) (hay : String) : Bool :=
  words.any fun w => strContains w hay

/-- Python `str.title()` on a list of characters: an alphabetic character
that follows a non-alphabetic one (or starts the string) is uppercased,
every other alphabetic character is lowercased. -/
def titleAux : Bool → List Char → List Char
  | _, [] => []
  | prevAlpha, c :: rest =>
    if c.isAlpha then
      (if prevAlpha then c.toLower else c.toUpper) :: titleAux true rest
    else c :: titleAux false rest

/-- Python `str.title()`. -/
def pyTitle (l : List Char) : List Char := titleAux false l

/-- Strips `p` from the front of `l`: `some rest` when `l = p ++ rest`. -/
def stripPrefixCL : List Char → List Char → Option (List Char)
  | [], l => some l
  | _ :: _, [] => none
  | p :: ps, c :: cs => if c = p then stripPrefixCL ps cs else none

/-- Python `str.split(sep)` for a non-empty separator: cut at each
leftmost non-overlapping occurrence.  `fuel` bounds the recursion; with
`fuel = l.length` it never runs out, because every step consumes at
least one character. -/
def splitOnCL (sep : List Char) : Nat → List Char → List (List Char)
  | 0, l => [l]
  | fuel + 1, l =>
    match l with
    | [] => [[]]
    | c :: cs =>
      match stripPrefixCL sep l with
      | some rest => [] :: splitOnCL sep fuel rest
      | none =>
        match splitOnCL sep fuel cs with
        | [] => [[c]]
        | p :: ps => (c :: p) :: ps

/-- Python `s.split(sep)` on `String`s (non-empty `sep`). -/
def pySplit (sep s : String) : List String :=
  (splitOnCL sep.data s.data.length s.data).map String.mk

/-- Python `sep.join(parts)`. -/
def pyJoin (sep : String) : List String → String
  | [] => ""
  | [x] => x
  | x :: xs => x ++ sep ++ pyJoin sep xs

/-- `cleaned.split('. ')` of `_clean_text`: cut at every leftmost
occurrence of `'.'` followed by `' '`, with structural recursion so
that the kernel can evaluate it on literals. -/
def splitDotSpace : List Char → List (List Char)
  | [] => [[]]
  | '.' :: ' ' :: rest => [] :: splitDotSpace rest
  | c :: rest =>
    match splitDotSpace rest with
    | [] => [[c]]
    | p :: ps => (c :: p) :: ps

/-- The sentence-reassembly loop of `_clean_text`: starting from
`truncated`, append each sentence followed by `". "` until
`len(truncated + sentence) > 1000`, then stop (`break` keeps the
accumulator). -/
def truncLoop : List (List Char) → List Char → List Char
  | [], truncated => truncated
  | s :: rest, truncated =>
    if 1000 < truncated.length + s.length then truncated
    else truncLoop rest (truncated ++ s ++ ['.', ' '])

/-! ## The embedded knowledge base (`_get_course_context`) -/

/-- One entry of the `course_data` dict: key, `content`, `keywords`. -/
structure CourseEntry where
  name : String
  content : String
  keywords : List String
deriving DecidableEq

/-- One entry of the `discourse_posts` list. -/
structure DiscoursePost where
  title : String
  url : String
  content : String
  keywords : List String
deriving DecidableEq

/-- The `course_data` dict, in declaration (= iteration) order. -/
def course_data : List CourseEntry :=
  [ { name := "python_setup"
    , content := "Python setup for TDS: Install Python 3.8+, create virtual environment with 'python -m venv tds_env', activate with 'source tds_env/bin/activate' (Linux/Mac) or 'tds_env\\Scripts\\activate' (Windows), install packages with 'pip install -r requirements.txt'"
    , keywords := ["python", "setup", "install", "environment", "pip", "venv"] }
  , { name := "assignments"
    , content := "TDS assignment guidelines: Submit through designated platform, include proper documentation, test code thoroughly, follow naming conventions, use version control. For GA assignments, follow specific model requirements like gpt-3.5-turbo-0125."
    , keywords := ["assignment", "submit", "homework", "ga", "deadline", "guidelines"] }
  , { name := "git_version_control"
    , content := "Git for TDS: Initialize with 'git init', add files with 'git add .', commit with 'git commit -m \"message\"', push to GitHub with 'git push origin main'. Use meaningful commit messages and branches."
    , keywords := ["git", "version", "control", "github", "commit", "push", "branch"] }
  , { name := "api_usage"
    , content := "API usage in TDS: Use proper authentication, implement rate limiting, handle errors gracefully, cache responses when possible. For OpenAI API, use specified models like gpt-3.5-turbo-0125 as required by assignments."
    , keywords := ["api", "openai", "gpt", "authentication", "rate", "limiting", "requests"] }
  , { name := "debugging"
    , content := "Debugging in TDS: Read error messages carefully, use print statements, check syntax and logic, search discourse for similar issues, share errors on forum for help from TAs and peers."
    , keywords := ["error", "debug", "fix", "problem", "issue", "troubleshoot"] } ]

/-- The `discourse_posts` list, in declaration order. -/
def discourse_posts : List DiscoursePost :=
  [ { title := "GA5 Question 8 Clarification"
    , url := "https://discourse.onlinedegree.iitm.ac.in/t/ga5-question-8-clarification/155939/4"
    , content := "You must use gpt-3.5-turbo-0125, even if the AI Proxy only supports gpt-4o-mini. Use the OpenAI API directly for this question."
    , keywords := ["gpt", "openai", "api", "assignment", "model"] }
  , { title := "Python Environment Setup"
    , url := "https://discourse.onlinedegree.iitm.ac.in/t/python-setup/156001"
    , content := "Create virtual environment with 'python -m venv tds_env', activate it, install packages with pip. Use Python 3.8 or higher."
    , keywords := ["python", "setup", "environment", "virtual", "pip"] }
  , { title := "Assignment Submission Format"
    , url := "https://discourse.onlinedegree.iitm.ac.in/t/assignment-format/155654"
    , content := "Include main.py, requirements.txt, README.md with explanation. Use meaningful variable names and comments."
    , keywords := ["assignment", "submission", "format", "requirements"] } ]

/-- The rendering of a matched course entry in `relevant_content`. -/
def courseSnippet (e : CourseEntry) : String := "Course Material: " ++ e.content

/-- The rendering of a matched discourse post in `relevant_content`. -/
def discourseSnippet (p : DiscoursePost) : String :=
  "Discourse: " ++ p.title ++ " - " ++ p.content ++ " (URL: " ++ p.url ++ ")"

/-- `_get_course_context`, translated clause by clause: lower-case the
question; run over `course_data` and then `discourse_posts`, counting
keyword substring hits and appending the rendered snippet whenever the
count is positive; join the first 3 snippets with a blank line, or fall
back to the generic sentence when nothing matched. -/
def _get_course_context (question : String) : String :=
  let question_lower := strLower question
  let relevant_content :=
    course_data.foldl
      (fun acc data =>
        let keyword_matches := (data.keywords.filter fun k => strContains k question_lower).length
        if 0 < keyword_matches then acc ++ [courseSnippet data] else acc)
      []
  let relevant_content :=
    discourse_posts.foldl
      (fun acc post =>
        let keyword_matches := (post.keywords.filter fun k => strContains k question_lower).length
        if 0 < keyword_matches then acc ++ [discourseSnippet post] else acc)
      relevant_content
  if relevant_content ≠ [] then pyJoin "\n\n" (relevant_content.take 3)
  else "General TDS course information available."

/-- The Context Retriever as the specification words it: exactly the
entries with at least one keyword occurring as a substring of the
lowered question, in declaration order, course topics before forum
posts. -/
def contextSnippetsSpec (question : String) : List String :=
  let ql := strLower question
  (course_data.filter fun e => e.keywords.any fun k => strContains k ql).map courseSnippet
    ++ (discourse_posts.filter fun p => p.keywords.any fun k => strContains k ql).map discourseSnippet

/-- The Context Retriever's result as the specification words it:
the first 3 matching snippets joined by a blank line, or the generic
placeholder when no entry matches. -/
def contextSpec (question : String) : String :=
  let s := contextSnippetsSpec question
  if s = [] then "General TDS course information available."
  else pyJoin "\n\n" (s.take 3)

/-! ## `_process_image` -/

/-- `_process_image`.  The base64 module is an external collaborator:
`b64decode` maps the wire string to its decoded bytes (`Nat`s below 256
in the intended instantiations), or to `none` when decoding raises;
the surrounding `try/except` turns that failure into the fixed message.
The rest is the source's control flow: the emptiness guard, the 10 MiB
limit, and magic-byte sniffing. -/
def _process_image (b64decode : String → Option (List Nat)) (image_b64 : String) : String :=
  if image_b64 = "" then ""
  else
    match b64decode image_b64 with
    | none => "Image provided but could not be processed."
    | some image_data =>
      let image_size := image_data.length
      if 10 * 1024 * 1024 < image_size then "Image too large (max 10MB)."
      else
        let format_type :=
          if image_data.take 3 = [0xff, 0xd8, 0xff] then "JPEG"
          else if image_data.take 4 = [0x89, 0x50, 0x4e, 0x47] then "PNG"
          else if image_data.take 4 = [0x52, 0x49, 0x46, 0x46]  -- b'RIFF'
                  && isInfixOfCL [0x57, 0x45, 0x42, 0x50] (image_data.take 12)  -- b'WEBP'
            then "WEBP"
          else "Unknown"
        "Image provided (" ++ format_type ++ ", " ++ toString image_size ++
          " bytes). Screenshot or diagram related to TDS question."

/-! ## `_generate_ai_response` -/

/-- What the external Gemini call would do: raise (`err` with the text of
the exception), or return a response whose `.text` is `txt` (a falsy
response or one with empty text is `ok ""`). -/
inductive ModelOutcome where
  | err (msg : String)
  | ok (txt : String)
deriving DecidableEq

/-- The environment `_generate_ai_response` runs in: the configured
credential (`""` when unset — Python falsiness of `settings.GEMINI_API_KEY`),
the result of `cache.get(cache_key, 0)` (`Except.error` when the Django
cache raises), whether `cache.set` succeeds, the current wall-clock time,
and the provider's behaviour.  Times are integral seconds. -/
structure GenEnv where
  gemini_api_key : String
  cacheGet : Except Unit Int
  cacheSetOk : Bool
  now : Int
  outcome : ModelOutcome

/-- The observable effects of one `_generate_ai_response` call: the
durations passed to `time.sleep` in order, the value written to the
rate-limit cache key (`none` when nothing was written), whether the
provider was invoked, and whether the quota warning was logged. -/
structure GenTrace where
  sleeps : List Int
  cacheWrite : Option Int
  callAttempted : Bool
  quotaWarned : Bool
deriving DecidableEq

/-- `_generate_ai_response`.  First the rate-limit block: read the shared
timestamp, sleep the remaining delta when less than 5 seconds have
elapsed, and store the current time; when the cache raises (at the read,
or at the write after the sleep) the `except` sleeps a fixed 2 seconds.
Then the Gemini block: the empty credential returns `None` at once, and
any provider error is logged (quota errors — text containing "429", or
"quota" case-insensitively — distinctly), and `None` returned; a response
with non-empty text is stripped and returned. -/
def _generate_ai_response (env : GenEnv) (_question _context _image_context : String) :
    Option String × GenTrace :=
  let current_time := env.now
  let (sleeps, cacheWrite) :=
    match env.cacheGet with
    | .ok last_request =>
      let s1 : List Int :=
        if current_time - last_request < 5 then [5 - (current_time - last_request)] else []
      if env.cacheSetOk then (s1, some current_time)
      else (s1 ++ [2], none)
    | .error _ => ([2], none)
  if env.gemini_api_key = "" then
    (none, { sleeps, cacheWrite, callAttempted := false, quotaWarned := false })
  else
    match env.outcome with
    | .err msg =>
      (none, { sleeps, cacheWrite, callAttempted := true
             , quotaWarned := strContains "429" msg || strContains "quota" (strLower msg) })
    | .ok txt =>
      if txt ≠ "" then
        (some (pyStripStr txt), { sleeps, cacheWrite, callAttempted := true, quotaWarned := false })
      else
        (none, { sleeps, cacheWrite, callAttempted := true, quotaWarned := false })

/-! ## `_clean_text` -/

/-- The value of `cleaned` at the end of `_clean_text`: whitespace
collapsing, then — once the cleaned text exceeds 1200 characters — the
sentence-level truncation followed by `.strip()`. -/
def cleanedOf (text : String) : List Char :=
  let cleaned := normWS text.data
  if 1200 < cleaned.length then pyStrip (truncLoop (splitDotSpace cleaned) [])
  else cleaned

/-- `_clean_text`: the falsy-input guard, the cleaning of `cleanedOf`,
and the final emptiness guard. -/
def _clean_text (text : String) : String :=
  if text = "" then "Unable to generate a proper response."
  else if cleanedOf text = [] then "Unable to generate a proper response."
  else String.mk (cleanedOf text)

/-! ## `_intelligent_fallback_answer` -/

/-- The `context_info` prefix of `_intelligent_fallback_answer`: the
first line of the text after the first "Course Material:" marker,
truncated to 200 characters, with ". " appended; empty when the marker
is absent (the `try/except pass` can only leave it empty). -/
def contextInfoOf (context : String) : String :=
  if context ≠ "" && strContains "Course Material:" context then
    let context_parts := pySplit "Course Material:" context
    if 1 < context_parts.length then
      String.mk ((pySplit "\n" (context_parts.getD 1 "")).getD 0 "" |>.data.take 200) ++ ". "
    else ""
  else ""

/-- The classification chain of `_intelligent_fallback_answer`: the
canned sentence of the first matching topic word set. -/
def fallbackTail (question : String) : String :=
  if anyContains ["gpt", "openai", "api", "model"] (strLower question) then
    "For TDS AI assignments: Use the specific model mentioned (like gpt-3.5-turbo-0125) through OpenAI API directly, even if proxies support different models."
  else if anyContains ["python", "setup", "install", "environment"] (strLower question) then
    "For Python in TDS: Install Python 3.8+, create virtual environment with 'python -m venv tds_env', activate it, then install packages with 'pip install -r requirements.txt'."
  else if anyContains ["assignment", "submit", "homework", "ga"] (strLower question) then
    "For TDS assignments: Follow submission format, include documentation and comments, test thoroughly, and check discourse for specific requirements."
  else if anyContains ["git", "version", "control"] (strLower question) then
    "For Git in TDS: 'git init', 'git add .', 'git commit -m \"message\"', 'git push origin main'. Use meaningful commit messages."
  else
    "For detailed help with your TDS question, please post on the discourse forum where TAs and students can provide comprehensive assistance."

/-- `_intelligent_fallback_answer`: the ≤200-character context prefix
(when a course-material snippet is present) followed by the canned
sentence of the question's classification — every branch of the source
returns `f"{context_info}<canned sentence>"`. -/
def _intelligent_fallback_answer (question context : String) : String :=
  contextInfoOf context ++ fallbackTail question

/-! ## `_extract_links` -/

/-- One reference link of the response payload (`{"url": …, "text": …}`). -/
structure Link where
  url : String
  text : String
deriving DecidableEq

/-- The literal part of the topic-URL pattern
`https://discourse\.onlinedegree\.iitm\.ac\.in/t/[^/\s)]+/\d+(?:/\d+)?`. -/
def urlPrefix : List Char := "https://discourse.onlinedegree.iitm.ac.in/t/".data

/-- A character the slug class `[^/\s)]` accepts. -/
def isSegChar (c : Char) : Bool := !(c == '/' || isPySpace c || c == ')')

/-- Match the topic-URL pattern at the start of `l`: the literal prefix,
a non-empty slug of `[^/\s)]` characters, `/`, digits, and optionally
`/` and more digits (all greedy; no backtracking arises because `/` is
excluded from the slug class).  Returns the matched text and the rest. -/
def matchUrlAt (l : List Char) : Option (List Char × List Char) :=
  match stripPrefixCL urlPrefix l with
  | none => none
  | some rest =>
    let seg := rest.takeWhile isSegChar
    if seg = [] then none
    else
      match rest.drop seg.length with
      | '/' :: rest2 =>
        let ds := rest2.takeWhile Char.isDigit
        if ds = [] then none
        else
          let rest3 := rest2.drop ds.length
          let (opt, rest4) :=
            match rest3 with
            | '/' :: rest5 =>
              let ds2 := rest5.takeWhile Char.isDigit
              if ds2 = [] then ([], rest3) else ('/' :: ds2, rest5.drop ds2.length)
            | _ => ([], rest3)
          some (urlPrefix ++ seg ++ '/' :: ds ++ opt, rest4)
      | _ => none

/-- `re.findall` for the topic-URL pattern: leftmost non-overlapping
matches, scanning left to right.  `fuel` bounds the recursion; with
`fuel = l.length` it never runs out, because every step consumes at
least one character (a match consumes at least the prefix). -/
def findUrlsAux : Nat → List Char → List (List Char)
  | 0, _ => []
  | _ + 1, [] => []
  | fuel + 1, c :: cs =>
    match matchUrlAt (c :: cs) with
    | some (m, rest) => m :: findUrlsAux fuel rest
    | none => findUrlsAux fuel cs

/-- `re.findall(r'https://discourse\.onlinedegree\.iitm\.ac\.in/t/[^/\s)]+/\d+(?:/\d+)?', context)`. -/
def findUrls (context : String) : List String :=
  (findUrlsAux context.data.length context.data).map String.mk

/-- `re.search(r'/t/([^/]+)/', url)`: the leftmost position where `/t/`,
a non-empty run of non-`/` characters and a final `/` all match; returns
the captured group.  When the pattern fails at one position the search
resumes one character later. -/
def topicSlug : List Char → Option (List Char)
  | [] => none
  | c :: cs =>
    match stripPrefixCL ['/', 't', '/'] (c :: cs) with
    | some rest =>
      let seg := rest.takeWhile (fun d => !(d == '/'))
      if seg ≠ [] ∧ (rest.drop seg.length).head? = some '/' then some seg
      else topicSlug cs
    | none => topicSlug cs

/-- The iteration order of a Python `set` of strings is implementation-
defined (hash-randomised): an admissible order is any duplicate-free
enumeration of the collected elements.  `list(set(urls))` is modelled by
an explicit function with this property. -/
def SetOrder (f : List String → List String) : Prop :=
  ∀ l, (f l).Nodup ∧ ∀ x, x ∈ f l ↔ x ∈ l

/-- An admissible `SetOrder` function: keep the first occurrence of each
element, in discovery order. -/
def dedupFirstAux (seen : List String) : List String → List String
  | [] => []
  | x :: xs => if x ∈ seen then dedupFirstAux seen xs else x :: dedupFirstAux (x :: seen) xs

/-- First-occurrence deduplication (discovery order). -/
def dedupFirst (l : List String) : List String := dedupFirstAux [] l

/-- The label and url built for the `i`-th (0-based) kept url. -/
def linkOf (i : Nat) (url : String) : Link :=
  match topicSlug url.data with
  | some slug =>
    { url, text := String.mk (pyTitle (slug.map fun c => if c = '-' then ' ' else c)) ++ " Discussion" }
  | none => { url, text := "Related Discussion " ++ toString (i + 1) }

/-- The label of the default link when no URL was found, by the
question's classification (assignment-related, code-related, generic). -/
def defaultLinkText (question : String) : String :=
  let question_lower := strLower question
  if anyContains ["assignment", "homework"] question_lower then "TDS Assignment Help"
  else if anyContains ["python", "code"] question_lower then "TDS Programming Help"
  else "TDS Course Forum"

/-- `_extract_links`, with the set order passed in as `setOrder`
(see `SetOrder`): find the topic URLs in the context, deduplicate, keep
at most 2, label each from its slug (hyphens to spaces, title case) or
positionally; when none were found, one default link whose label follows
the question's classification (`defaultLinkText`). -/
def _extract_links (setOrder : List String → List String) (context question : String) :
    List Link :=
  let urls := findUrls context
  let links := ((setOrder urls).take 2).enum.map fun (i, url) => linkOf i url
  if links = [] then
    [{ url := "https://discourse.onlinedegree.iitm.ac.in/", text := defaultLinkText question }]
  else links

/-! ## `_format_final_response`, `_emergency_fallback`, `process_tds_question` -/

/-- The terminal payload `{"answer": …, "links": …}`. -/
structure AnswerResult where
  answer : String
  links : List Link
deriving DecidableEq

/-- `_emergency_fallback`. -/
def _emergency_fallback (_question : String) : AnswerResult :=
  { answer := "I'm currently experiencing issues. Please post your TDS question on the discourse forum where TAs and fellow students can help."
  , links := [{ url := "https://discourse.onlinedegree.iitm.ac.in/", text := "TDS Course Forum" }] }

/-- `_format_final_response`: the AI text is used when present with a
stripped length above 10 characters, otherwise the rule-based fallback;
links always come from `_extract_links`.  (The final `json.dumps` probe
cannot fail on a payload of strings, so the `except` return of
`_emergency_fallback` there is unreachable.) -/
def _format_final_response (setOrder : List String → List String)
    (ai_response : Option String) (question context : String) : AnswerResult :=
  let answer :=
    match ai_response with
    | some t =>
      if t ≠ "" ∧ 10 < (pyStrip t.data).length then _clean_text t
      else _intelligent_fallback_answer question context
    | none => _intelligent_fallback_answer question context
  { answer, links := _extract_links setOrder context question }

/-- `process_tds_question`: context retrieval, optional image
description, the throttled AI attempt, and response formatting.  The
model's outcome and the cache are carried by `env`; the base64 decoder
by `b64decode`; the `set` iteration order by `setOrder`.  No stage of
the model raises, so the top-level `except` path to
`_emergency_fallback` is not taken. -/
def process_tds_question (setOrder : List String → List String)
    (b64decode : String → Option (List Nat)) (env : GenEnv)
    (question : String) (image_b64 : String) : AnswerResult :=
  let context := _get_course_context question
  let image_context := if image_b64 ≠ "" then _process_image b64decode image_b64 else ""
  let ai_response := (_generate_ai_response env question context image_context).fst
  _format_final_response setOrder ai_response question context

/-! ## The HTTP boundary (`views.py`, `virtual_ta_main`) -/

/-- What `json.loads(request.body)` followed by the two `data.get` calls
yields: `Except.error` when the body is not valid JSON (the call raises),
or the optional `question` and `image` fields. -/
def ParsedBody := Except Unit (Option String × Option String)

/-- `virtual_ta_main`, returning the HTTP status code and the payload.
The success path delegates to the `MultiAIService`/`DataScraper`
collaborators (absent from this repository), abstracted as `pipeline`;
the `except` branch converts any parse failure into the fixed 500
answer; the empty-question guard returns the fixed 400 answer. -/
def virtual_ta_main (pipeline : String → AnswerResult) (body : ParsedBody) :
    Nat × AnswerResult :=
  match body with
  | .error _ =>
    (500, { answer := "An error occurred. Please try again."
          , links := [{ url := "https://discourse.onlinedegree.iitm.ac.in/", text := "TDS Forum" }] })
  | .ok (qOpt, _imgOpt) =>
    let question := pyStripStr (qOpt.getD "")
    if question = "" then
      (400, { answer := "Please provide a question for the TDS Virtual TA."
            , links := [{ url := "https://discourse.onlinedegree.iitm.ac.in/", text := "TDS Course Forum" }] })
    else (200, pipeline question)

/-! ## Concrete inputs and auxiliary notions used by the theorems below -/

/-- Decoder used to witness C6: its domain covers all four contract
cases. -/
def c6decoder : String → Option (List Nat) := fun s =>
  if s = "bad" then none
  else if s = "big" then some (List.replicate (10 * 1024 * 1024 + 1) 0)
  else if s = "jpeg" then some [0xff, 0xd8, 0xff, 0x00]
  else none

/-- An admissible set order that reverses first-occurrence order: a
duplicate-free enumeration of the same elements, as `list(set(urls))`
is free to produce under hash randomisation. -/
def revOrder (l : List String) : List String := (dedupFirst l).reverse

/-- A context holding two distinct topic URLs, the first discovered
being `alpha-topic`. -/
def ctxTwoUrls : String :=
  "See https://discourse.onlinedegree.iitm.ac.in/t/alpha-topic/111 and https://discourse.onlinedegree.iitm.ac.in/t/beta-topic/222 for details"

/-- The scenario question of C9. -/
def pythonSetupQ : String := "How do I set up Python for TDS?"

/-- The concrete over-long input of the C3 counterexample: 1000 `a`s,
a sentence boundary, 300 `b`s (1302 characters once collapsed — which
changes nothing here). -/
def longText : String := String.mk (List.replicate 1000 'a' ++ ('.' :: ' ' :: List.replicate 300 'b'))

/-- An over-long input whose first sentence (1005 characters) already
exceeds the 1000-character cap. -/
def longNoBoundary : String :=
  String.mk (List.replicate 1005 'a' ++ ('.' :: ' ' :: List.replicate 200 'b'))

/-- Every whitespace character is a plain space. -/
def AllWsSpace (l : List Char) : Prop := ∀ c ∈ l, isPySpace c = true → c = ' '

/-- No two adjacent whitespace characters. -/
def NoWsPair (l : List Char) : Prop :=
  List.Chain' (fun a b => ¬(isPySpace a = true ∧ isPySpace b = true)) l

/-- The head, when present, is not whitespace. -/
def HeadNonWs (l : List Char) : Prop := ∀ c, l.head? = some c → isPySpace c = false

/-- The last character, when present, is not whitespace. -/
def LastNonWs (l : List Char) : Prop := ∀ c, l.getLast? = some c → isPySpace c = false

/-- A fully normalised character list (the shape `normWS` produces). -/
def Normed (l : List Char) : Prop := AllWsSpace l ∧ NoWsPair l ∧ HeadNonWs l ∧ LastNonWs l

/-- The adjacency condition as an executable check, for concrete
strings. -/
def noWsPairB : List Char → Bool
  | [] => true
  | [_] => true
  | a :: b :: rest => !(isPySpace a && isPySpace b) && noWsPairB (b :: rest)

/-! ## Helper lemmas -/

theorem length_filter_pos_iff_any {α : Type} (p : α → Bool) (l : List α) :
    0 < (l.filter p).length ↔ l.any p = true := by
  induction l with
  | nil => simp
  | cons x xs ih => by_cases h : p x <;> simp [List.filter_cons, h, ih]

theorem foldl_append_if {α β : Type} (p : α → Bool) (g : α → β)
    (f : List β → α → List β) (hf : ∀ a x, f a x = if p x then a ++ [g x] else a) :
    ∀ (l : List α) (acc : List β), l.foldl f acc = acc ++ (l.filter p).map g := by
  intro l
  induction l with
  | nil => intro acc; simp
  | cons x xs ih =>
    intro acc
    rw [List.foldl_cons, hf, List.filter_cons]
    by_cases h : p x
    · simp only [h, if_true, ih, List.map_cons, List.cons_append]
      simp
    · simp only [h, if_false, ih]
      simp [h]

/-! ## C2: the Context Retriever matches the specification -/

/-- C2.  For every question, `_get_course_context` lower-cases the
question, includes exactly the knowledge-base entries with at least one
keyword occurring as a substring of the lowered question, lists them in
declaration order (course topics before forum posts), truncates to the
first 3, and when nothing matches returns the single generic placeholder
snippet — i.e. it coincides with the retriever the specification
describes (`contextSpec`). -/
theorem context_retriever_matches_spec (question : String) :
    _get_course_context question = contextSpec question := by
  have hc :
      course_data.foldl
          (fun acc data =>
            let keyword_matches :=
              (data.keywords.filter fun k => strContains k (strLower question)).length
            if 0 < keyword_matches then acc ++ [courseSnippet data] else acc) [] =
        [] ++ (course_data.filter fun e =>
            e.keywords.any fun k => strContains k (strLower question)).map courseSnippet := by
    apply foldl_append_if
    intro a x
    show (if 0 < (x.keywords.filter fun k => strContains k (strLower question)).length
          then a ++ [courseSnippet x] else a) = _
    by_cases h : (x.keywords.any fun k => strContains k (strLower question)) = true
    · rw [if_pos ((length_filter_pos_iff_any _ _).mpr h), if_pos h]
    · rw [if_neg, if_neg h]
      rw [length_filter_pos_iff_any]
      exact h
  have hd :
      ∀ acc, discourse_posts.foldl
          (fun acc post =>
            let keyword_matches :=
              (post.keywords.filter fun k => strContains k (strLower question)).length
            if 0 < keyword_matches then acc ++ [discourseSnippet post] else acc) acc =
        acc ++ (discourse_posts.filter fun p =>
            p.keywords.any fun k => strContains k (strLower question)).map discourseSnippet := by
    intro acc
    apply foldl_append_if
    intro a x
    show (if 0 < (x.keywords.filter fun k => strContains k (strLower question)).length
          then a ++ [discourseSnippet x] else a) = _
    by_cases h : (x.keywords.any fun k => strContains k (strLower question)) = true
    · rw [if_pos ((length_filter_pos_iff_any _ _).mpr h), if_pos h]
    · rw [if_neg, if_neg h]
      rw [length_filter_pos_iff_any]
      exact h
  show (let relevant_content :=
          discourse_posts.foldl _
            (course_data.foldl _ [])
        if relevant_content ≠ [] then pyJoin "\n\n" (relevant_content.take 3)
        else "General TDS course information available.") = _
  rw [show (course_data.foldl
        (fun acc data =>
          let keyword_matches :=
            (data.keywords.filter fun k => strContains k (strLower question)).length
          if 0 < keyword_matches then acc ++ [courseSnippet data] else acc) []) =
      [] ++ (course_data.filter fun e =>
          e.keywords.any fun k => strContains k (strLower question)).map courseSnippet from hc]
  rw [hd]
  simp only [List.nil_append]
  set s := (course_data.filter fun e =>
      e.keywords.any fun k => strContains k (strLower question)).map courseSnippet ++
    (discourse_posts.filter fun p =>
      p.keywords.any fun k => strContains k (strLower question)).map discourseSnippet with hs
  show (if s ≠ [] then pyJoin "\n\n" (s.take 3) else "General TDS course information available.") = _
  unfold contextSpec contextSnippetsSpec
  by_cases h : s = []
  · rw [if_neg (by simpa using h), if_pos (by rw [← hs] at *; exact h)]
  · rw [if_pos (by simpa using h), if_neg (by rw [← hs] at *; exact h)]

/-! ## C5: malformed JSON -/

/-- C5 counterexample.  A POST body that is not valid JSON is answered
with status 500 (the generic `except` branch of `virtual_ta_main`), not
400 as claimed: at this concrete malformed request the status differs
from 400. -/
theorem malformed_json_not_400 :
    (virtual_ta_main (fun _ => _emergency_fallback "") (Except.error ())).1 = 500 ∧
    (virtual_ta_main (fun _ => _emergency_fallback "") (Except.error ())).1 ≠ 400 := by
  exact ⟨rfl, by decide⟩

/-- C5 amended.  For every POST request whose body is not valid JSON,
the service responds with status 500 and the fixed error payload of the
generic exception handler, whatever the downstream pipeline is. -/
theorem malformed_json_returns_500 (pipeline : String → AnswerResult) :
    virtual_ta_main pipeline (Except.error ()) =
      (500, { answer := "An error occurred. Please try again."
            , links := [{ url := "https://discourse.onlinedegree.iitm.ac.in/"
                        , text := "TDS Forum" }] }) := rfl

/-! ## C6: the Image Describer is total and follows its contract -/

/-- C6.  The Image Describer (a total Lean function, hence never
raising) returns the empty string for an empty payload; the fixed
"could not be processed" string when decoding fails; the fixed
"too large" string when the decoded size exceeds 10 MiB; and otherwise,
for a payload whose decoded bytes start with `FF D8 FF`, the success
message naming JPEG and the byte size. -/
theorem image_describer_contract (b64decode : String → Option (List Nat)) :
    _process_image b64decode "" = "" ∧
    (∀ s, s ≠ "" → b64decode s = none →
      _process_image b64decode s = "Image provided but could not be processed.") ∧
    (∀ s data, s ≠ "" → b64decode s = some data → 10 * 1024 * 1024 < data.length →
      _process_image b64decode s = "Image too large (max 10MB).") ∧
    (∀ s data, s ≠ "" → b64decode s = some data → data.length ≤ 10 * 1024 * 1024 →
      data.take 3 = [0xff, 0xd8, 0xff] →
      _process_image b64decode s =
        "Image provided (" ++ "JPEG" ++ ", " ++ toString data.length ++
          " bytes). Screenshot or diagram related to TDS question.") := by
  refine ⟨rfl, ?_, ?_, ?_⟩
  · intro s hs hdec
    unfold _process_image
    rw [if_neg hs, hdec]
  · intro s data hs hdec hbig
    unfold _process_image
    rw [if_neg hs, hdec]
    simp only [if_pos hbig]
  · intro s data hs hdec hsize hjpeg
    unfold _process_image
    rw [if_neg hs, hdec]
    simp only [if_neg (not_lt.mpr hsize), if_pos hjpeg]

/-- Witness for C6 at concrete payloads. -/
theorem image_describer_contract_witness :
    _process_image c6decoder "" = "" ∧
    _process_image c6decoder "bad" = "Image provided but could not be processed." ∧
    _process_image c6decoder "big" = "Image too large (max 10MB)." ∧
    _process_image c6decoder "jpeg" =
      "Image provided (" ++ "JPEG" ++ ", " ++ toString (4 : Nat) ++
        " bytes). Screenshot or diagram related to TDS question." :=
  ⟨(image_describer_contract c6decoder).1,
   (image_describer_contract c6decoder).2.1 "bad" (by decide) rfl,
   (image_describer_contract c6decoder).2.2.1 "big" (List.replicate (10 * 1024 * 1024 + 1) 0)
     (by decide) rfl (by rw [List.length_replicate]; decide),
   (image_describer_contract c6decoder).2.2.2 "jpeg" [0xff, 0xd8, 0xff, 0x00]
     (by decide) rfl (by decide) (by decide)⟩

/-! ## C7: the Answer Generator never propagates an error -/

/-- With no credential configured, the generator returns `none` without
attempting the provider call (shared helper). -/
theorem gen_none_of_unconfigured (env : GenEnv) (q c i : String)
    (hk : env.gemini_api_key = "") :
    (_generate_ai_response env q c i).1 = none ∧
    (_generate_ai_response env q c i).2.callAttempted = false := by
  obtain ⟨key, cg, cs, now, oc⟩ := env
  subst hk
  cases cg <;> cases cs <;> simp [_generate_ai_response]

/-- C7.  The Answer Generator is total (never propagates an error): with
no credential configured it returns `none` without attempting the
provider call; on any provider error it returns `none`; and a successful
call yielding empty text is also `none`. -/
theorem answer_generator_absorbs_errors (env : GenEnv) (q c i : String) :
    (env.gemini_api_key = "" →
      (_generate_ai_response env q c i).1 = none ∧
      (_generate_ai_response env q c i).2.callAttempted = false) ∧
    (∀ msg, env.outcome = .err msg → (_generate_ai_response env q c i).1 = none) ∧
    (env.outcome = .ok "" → (_generate_ai_response env q c i).1 = none) := by
  refine ⟨fun hk => gen_none_of_unconfigured env q c i hk, ?_⟩
  obtain ⟨key, cg, cs, now, oc⟩ := env
  refine ⟨fun msg ho => ?_, fun ho => ?_⟩
  · subst ho
    by_cases hk : key = "" <;>
      cases cg <;> cases cs <;> simp [_generate_ai_response, hk]
  · subst ho
    by_cases hk : key = "" <;>
      cases cg <;> cases cs <;> simp [_generate_ai_response, hk]

/-- Witness for C7: three concrete environments, one per contract case. -/
theorem answer_generator_absorbs_errors_witness :
    (_generate_ai_response ⟨"", .ok 0, true, 100, .ok "hi"⟩ "q" "c" "").1 = none ∧
    (_generate_ai_response ⟨"", .ok 0, true, 100, .ok "hi"⟩ "q" "c" "").2.callAttempted = false ∧
    (_generate_ai_response ⟨"key", .ok 0, true, 100, .err "429 quota exceeded"⟩ "q" "c" "").1 = none ∧
    (_generate_ai_response ⟨"key", .ok 0, true, 100, .ok ""⟩ "q" "c" "").1 = none :=
  ⟨((answer_generator_absorbs_errors ⟨"", .ok 0, true, 100, .ok "hi"⟩ "q" "c" "").1 rfl).1,
   ((answer_generator_absorbs_errors ⟨"", .ok 0, true, 100, .ok "hi"⟩ "q" "c" "").1 rfl).2,
   (answer_generator_absorbs_errors ⟨"key", .ok 0, true, 100, .err "429 quota exceeded"⟩ "q" "c" "").2.1
     "429 quota exceeded" rfl,
   (answer_generator_absorbs_errors ⟨"key", .ok 0, true, 100, .ok ""⟩ "q" "c" "").2.2 rfl⟩

/-! ## C10: the throttle runs before the credential check -/

/-- C10.  Even when no model credential is configured (so the call
returns absent), the throttle step has already run: with the cache
reachable the shared timestamp was read, the remaining delta under 5
seconds slept, and the current time written; with the cache unreachable
the fixed 2-second fallback sleep happened instead. -/
theorem throttle_precedes_credential_check (env : GenEnv) (q c i : String)
    (hkey : env.gemini_api_key = "") :
    (_generate_ai_response env q c i).1 = none ∧
    (∀ last, env.cacheGet = .ok last → env.cacheSetOk = true →
      (_generate_ai_response env q c i).2.cacheWrite = some env.now ∧
      (_generate_ai_response env q c i).2.sleeps =
        (if env.now - last < 5 then [5 - (env.now - last)] else [])) ∧
    (∀ e, env.cacheGet = .error e →
      (_generate_ai_response env q c i).2.sleeps = [2] ∧
      (_generate_ai_response env q c i).2.cacheWrite = none) := by
  obtain ⟨key, cg, cs, now, oc⟩ := env
  subst hkey
  refine ⟨?_, fun last hget hset => ?_, fun e hget => ?_⟩
  · cases cg <;> cases cs <;> simp [_generate_ai_response]
  · cases hget
    subst hset
    constructor <;> simp [_generate_ai_response]
  · cases hget
    cases cs <;> constructor <;> simp [_generate_ai_response]

/-- Witness for C10: one reachable-cache environment (2 seconds since
the last call, so a 3-second sleep and a write of the current time) and
one unreachable-cache environment (the fixed 2-second sleep), both with
the credential unset. -/
theorem throttle_precedes_credential_check_witness :
    (_generate_ai_response ⟨"", .ok 2, true, 4, .ok "hi"⟩ "q" "c" "").1 = none ∧
    (_generate_ai_response ⟨"", .ok 2, true, 4, .ok "hi"⟩ "q" "c" "").2.cacheWrite = some 4 ∧
    (_generate_ai_response ⟨"", .ok 2, true, 4, .ok "hi"⟩ "q" "c" "").2.sleeps = [3] ∧
    (_generate_ai_response ⟨"", .error (), true, 4, .ok "hi"⟩ "q" "c" "").2.sleeps = [2] ∧
    (_generate_ai_response ⟨"", .error (), true, 4, .ok "hi"⟩ "q" "c" "").2.cacheWrite = none := by
  refine ⟨(throttle_precedes_credential_check ⟨"", .ok 2, true, 4, .ok "hi"⟩ "q" "c" "" rfl).1,
    ((throttle_precedes_credential_check ⟨"", .ok 2, true, 4, .ok "hi"⟩ "q" "c" "" rfl).2.1 2 rfl rfl).1,
    ?_,
    ((throttle_precedes_credential_check ⟨"", .error (), true, 4, .ok "hi"⟩ "q" "c" "" rfl).2.2 () rfl).1,
    ((throttle_precedes_credential_check ⟨"", .error (), true, 4, .ok "hi"⟩ "q" "c" "" rfl).2.2 () rfl).2⟩
  have h := ((throttle_precedes_credential_check ⟨"", .ok 2, true, 4, .ok "hi"⟩ "q" "c" "" rfl).2.1 2 rfl rfl).2
  simpa using h

/-! ## Link-extraction lemmas -/

theorem mem_dedupFirstAux (seen l : List String) (x : String) :
    x ∈ dedupFirstAux seen l ↔ x ∈ l ∧ x ∉ seen := by
  induction l generalizing seen with
  | nil => simp [dedupFirstAux]
  | cons y ys ih =>
    by_cases h : y ∈ seen
    · simp only [dedupFirstAux, if_pos h, ih, List.mem_cons]
      constructor
      · rintro ⟨hm, hn⟩; exact ⟨Or.inr hm, hn⟩
      · rintro ⟨hm | hm, hn⟩
        · subst hm; exact absurd h hn
        · exact ⟨hm, hn⟩
    · simp only [dedupFirstAux, if_neg h, List.mem_cons, ih]
      constructor
      · rintro (hx | ⟨hm, hn⟩)
        · subst hx; exact ⟨Or.inl rfl, h⟩
        · exact ⟨Or.inr hm, fun hs => hn (Or.inr hs)⟩
      · rintro ⟨hx | hm, hn⟩
        · exact Or.inl hx
        · by_cases hxy : x = y
          · exact Or.inl hxy
          · exact Or.inr ⟨hm, by simp [hxy, hn]⟩

theorem nodup_dedupFirstAux (seen l : List String) : (dedupFirstAux seen l).Nodup := by
  induction l generalizing seen with
  | nil => simp [dedupFirstAux]
  | cons y ys ih =>
    by_cases h : y ∈ seen
    · simpa [dedupFirstAux, if_pos h] using ih seen
    · simp only [dedupFirstAux, if_neg h]
      refine List.Nodup.cons ?_ (ih (y :: seen))
      intro hy
      exact ((mem_dedupFirstAux _ _ _).mp hy).2 (List.mem_cons_self _ _)

/-- `dedupFirst` is an admissible iteration order for `list(set(urls))`. -/
theorem setOrder_dedupFirst : SetOrder dedupFirst := by
  intro l
  refine ⟨nodup_dedupFirstAux [] l, fun x => ?_⟩
  rw [dedupFirst, mem_dedupFirstAux]
  simp

theorem string_append_data (a b : String) : (a ++ b).data = a.data ++ b.data := rfl

theorem string_mk_ne_empty {l : List Char} (h : l ≠ []) : String.mk l ≠ "" := by
  intro hc
  exact h (congrArg String.data hc)

theorem append_ne_empty_right (a b : String) (h : b ≠ "") : a ++ b ≠ "" := by
  intro hc
  have hd : a.data ++ b.data = [] := congrArg String.data hc
  rcases List.append_eq_nil.mp hd with ⟨-, hb⟩
  rcases b with ⟨bl⟩
  exact h (by simpa using congrArg String.mk hb)

/-- `linkOf` keeps the URL it labels. -/
theorem linkOf_url (i : Nat) (url : String) : (linkOf i url).url = url := by
  unfold linkOf
  cases topicSlug url.data <;> rfl

/-- Every link built from a found URL carries a non-empty label. -/
theorem linkOf_text_ne_empty (i : Nat) (url : String) : (linkOf i url).text ≠ "" := by
  unfold linkOf
  cases topicSlug url.data with
  | some slug => exact append_ne_empty_right _ _ (by decide)
  | none =>
    show "Related Discussion " ++ toString (i + 1) ≠ ""
    intro hc
    have hd : ("Related Discussion ").data ++ (toString (i + 1)).data = [] :=
      congrArg String.data hc
    rcases List.append_eq_nil.mp hd with ⟨ha, -⟩
    simp at ha

/-- The default link's label is never empty. -/
theorem defaultLinkText_ne_empty (question : String) : defaultLinkText question ≠ "" := by
  unfold defaultLinkText
  by_cases h1 : anyContains ["assignment", "homework"] (strLower question) = true
  · simp only [h1, if_true]; decide
  · simp only [Bool.not_eq_true] at h1
    by_cases h2 : anyContains ["python", "code"] (strLower question) = true
    · simp only [h1, h2, if_true, Bool.false_eq_true, if_false]; decide
    · simp only [Bool.not_eq_true] at h2
      simp only [h1, h2, Bool.false_eq_true, if_false]; decide

/-- The structural facts about `_extract_links` under any admissible set
order: between 1 and 2 links, every label non-empty; exactly the default
link when no URL is found; every link's URL is a found URL otherwise. -/
theorem extract_links_facts (f : List String → List String) (hf : SetOrder f)
    (context question : String) :
    1 ≤ (_extract_links f context question).length ∧
    (_extract_links f context question).length ≤ 2 ∧
    (∀ lk ∈ _extract_links f context question, lk.text ≠ "") ∧
    (findUrls context = [] → _extract_links f context question =
      [{ url := "https://discourse.onlinedegree.iitm.ac.in/", text := defaultLinkText question }]) ∧
    (findUrls context ≠ [] →
      ∀ lk ∈ _extract_links f context question, lk.url ∈ findUrls context) := by
  have hmem := (hf (findUrls context)).2
  set urls := findUrls context with hurls
  set links := ((f urls).take 2).enum.map (fun (p : Nat × String) => linkOf p.1 p.2) with hlinks
  have hshow : _extract_links f context question =
      if links = [] then
        [{ url := "https://discourse.onlinedegree.iitm.ac.in/", text := defaultLinkText question }]
      else links := rfl
  by_cases hnil : links = []
  · rw [hshow, if_pos hnil]
    refine ⟨by simp, by simp, ?_, fun _ => rfl, fun hne lk hlk => ?_⟩
    · intro lk hlk
      rcases List.mem_singleton.mp hlk with rfl
      exact defaultLinkText_ne_empty question
    · exfalso
      rcases List.exists_mem_of_ne_nil _ hne with ⟨u, hu⟩
      have hu' : u ∈ f urls := (hmem u).mpr hu
      have hfne : f urls ≠ [] := List.ne_nil_of_mem hu'
      have htne : (f urls).take 2 ≠ [] := by
        intro ht
        rcases List.take_eq_nil_iff.mp ht with h2 | h2
        · exact absurd h2 (by decide)
        · exact hfne h2
      apply htne
      have henum : ((f urls).take 2).enum = [] := List.map_eq_nil_iff.mp hnil
      simpa using congrArg (List.map Prod.snd) henum
  · rw [hshow, if_neg hnil]
    have hlen : links.length = ((f urls).take 2).length := by
      rw [hlinks, List.length_map, List.enum_length]
    refine ⟨?_, ?_, ?_, fun hemp => ?_, fun hne lk hlk => ?_⟩
    · rcases links with - | ⟨a, as⟩
      · exact absurd rfl hnil
      · simp
    · rw [hlen]; exact List.length_take_le 2 _
    · intro lk hlk
      rw [hlinks] at hlk
      rcases List.mem_map.mp hlk with ⟨⟨i, u⟩, -, rfl⟩
      exact linkOf_text_ne_empty i u
    · exfalso
      apply hnil
      have hfe : f urls = [] := by
        rcases hq : f urls with - | ⟨a, as⟩
        · rfl
        · exfalso
          have ha : a ∈ f urls := by rw [hq]; exact List.mem_cons_self _ _
          have ha2 : a ∈ urls := (hmem a).mp ha
          rw [hemp] at ha2
          exact absurd ha2 (List.not_mem_nil a)
      rw [hlinks, hfe]
      rfl
    · rw [hlinks] at hlk
      rcases List.mem_map.mp hlk with ⟨⟨i, u⟩, hmem2, rfl⟩
      have hu : u ∈ (f urls).take 2 :=
        List.getElem?_mem (List.mk_mem_enum_iff_getElem?.mp hmem2)
      have humem : u ∈ f urls := List.mem_of_mem_take hu
      show (linkOf i u).url ∈ urls
      rw [linkOf_url]
      exact (hmem u).mp humem

/-! ## C4: link extraction -/

/-- C4 counterexample.  The claim requires the kept links to be in
discovery order, but the code orders them by `list(set(urls))`, whose
iteration order is implementation-defined.  Concretely: discovery order
in `ctxTwoUrls` is alpha before beta, yet under the admissible set order
`revOrder` (a duplicate-free enumeration of exactly the found URLs, as
witnessed by the `Nodup` and `Perm` conjuncts) the extracted links come
out beta before alpha. -/
theorem link_discovery_order_counterexample :
    findUrls ctxTwoUrls =
      ["https://discourse.onlinedegree.iitm.ac.in/t/alpha-topic/111",
       "https://discourse.onlinedegree.iitm.ac.in/t/beta-topic/222"] ∧
    (revOrder (findUrls ctxTwoUrls)).Nodup ∧
    (revOrder (findUrls ctxTwoUrls)).Perm (findUrls ctxTwoUrls) ∧
    _extract_links revOrder ctxTwoUrls "question" =
      [{ url := "https://discourse.onlinedegree.iitm.ac.in/t/beta-topic/222"
       , text := "Beta Topic Discussion" },
       { url := "https://discourse.onlinedegree.iitm.ac.in/t/alpha-topic/111"
       , text := "Alpha Topic Discussion" }] := by
  exact ⟨by decide, by decide, by decide, by decide⟩

/-- C4 amended.  For every context and question, under any admissible
`list(set(·))` iteration order: link extraction returns between 1 and 2
links, every label is non-empty, each kept link's URL is one of the
URLs found in the context, and when the context contains no matching
URL the result is exactly the one default link whose label follows the
question's classification.  (The order of the kept links is the set
order, not necessarily discovery order.) -/
theorem link_extraction_contract (f : List String → List String) (hf : SetOrder f)
    (context question : String) :
    1 ≤ (_extract_links f context question).length ∧
    (_extract_links f context question).length ≤ 2 ∧
    (∀ lk ∈ _extract_links f context question, lk.text ≠ "") ∧
    (findUrls context = [] → _extract_links f context question =
      [{ url := "https://discourse.onlinedegree.iitm.ac.in/", text := defaultLinkText question }]) ∧
    (findUrls context ≠ [] →
      ∀ lk ∈ _extract_links f context question, lk.url ∈ findUrls context) :=
  extract_links_facts f hf context question

/-- Witness for C4 (amended) at a concrete admissible set order and a
URL-free context: exactly the assignment-classified default link. -/
theorem link_extraction_contract_witness :
    _extract_links dedupFirst "no urls here" "how to submit the assignment" =
      [{ url := "https://discourse.onlinedegree.iitm.ac.in/", text := "TDS Assignment Help" }] := by
  have h := (link_extraction_contract dedupFirst setOrder_dedupFirst
    "no urls here" "how to submit the assignment").2.2.2.1 (by decide)
  rw [h]
  rfl

/-! ## C1: the pipeline always yields a valid AnswerResult -/

/-- `_clean_text` never returns the empty string. -/
theorem clean_text_ne_empty (t : String) : _clean_text t ≠ "" := by
  unfold _clean_text
  by_cases h : t = ""
  · rw [if_pos h]; decide
  · rw [if_neg h]
    by_cases h2 : cleanedOf t = []
    · rw [if_pos h2]; decide
    · rw [if_neg h2]; exact string_mk_ne_empty h2

/-- The rule-based fallback answer is never empty: every classification
branch appends a fixed non-empty sentence to the context prefix. -/
theorem fallback_answer_ne_empty (q c : String) : _intelligent_fallback_answer q c ≠ "" := by
  unfold _intelligent_fallback_answer fallbackTail
  split_ifs <;> exact append_ne_empty_right _ _ (by decide)

/-- The composed answer is never empty, whatever the AI text was. -/
theorem format_answer_ne_empty (f : List String → List String) (ai : Option String)
    (q c : String) : (_format_final_response f ai q c).answer ≠ "" := by
  show (match ai with
    | some t =>
      if t ≠ "" ∧ 10 < (pyStrip t.data).length then _clean_text t
      else _intelligent_fallback_answer q c
    | none => _intelligent_fallback_answer q c) ≠ ""
  cases ai with
  | none => exact fallback_answer_ne_empty q c
  | some t =>
    dsimp only
    split
    · exact clean_text_ne_empty t
    · exact fallback_answer_ne_empty q c

/-- C1.  For every question, image payload, provider behaviour, cache
state and admissible set order, the full pipeline returns an
`AnswerResult` (it is a total function — no exception can escape) whose
answer is non-empty and whose links have length at least 1. -/
theorem pipeline_always_valid (f : List String → List String) (hf : SetOrder f)
    (b64decode : String → Option (List Nat)) (env : GenEnv) (question image_b64 : String) :
    (process_tds_question f b64decode env question image_b64).answer ≠ "" ∧
    1 ≤ (process_tds_question f b64decode env question image_b64).links.length := by
  refine ⟨format_answer_ne_empty f _ question (_get_course_context question), ?_⟩
  show 1 ≤ (_extract_links f (_get_course_context question) question).length
  exact (extract_links_facts f hf (_get_course_context question) question).1

/-- Witness for C1 at concrete inputs. -/
theorem pipeline_always_valid_witness :
    (process_tds_question dedupFirst (fun _ => none) ⟨"", .ok 0, true, 100, .ok ""⟩
      "hello" "img").answer ≠ "" ∧
    1 ≤ (process_tds_question dedupFirst (fun _ => none) ⟨"", .ok 0, true, 100, .ok ""⟩
      "hello" "img").links.length :=
  pipeline_always_valid dedupFirst setOrder_dedupFirst (fun _ => none)
    ⟨"", .ok 0, true, 100, .ok ""⟩ "hello" "img"

/-! ## C9: the Python-setup scenario -/

/-- C9.  For the question "How do I set up Python for TDS?": the
retrieved context contains the `python_setup` course entry and the
"Python Environment Setup" discourse entry; and with the AI absent
(no credential configured) the pipeline's rule-based answer contains the
venv guidance and the result carries at least one link. -/
theorem python_setup_scenario (f : List String → List String) (hf : SetOrder f)
    (b64decode : String → Option (List Nat)) (env : GenEnv)
    (henv : env.gemini_api_key = "") :
    strContains "Course Material: Python setup for TDS: Install Python 3.8+, create virtual environment with 'python -m venv tds_env', activate with 'source tds_env/bin/activate' (Linux/Mac) or 'tds_env\\Scripts\\activate' (Windows), install packages with 'pip install -r requirements.txt'"
      (_get_course_context pythonSetupQ) = true ∧
    strContains "Discourse: Python Environment Setup" (_get_course_context pythonSetupQ) = true ∧
    strContains "venv" (process_tds_question f b64decode env pythonSetupQ "").answer = true ∧
    1 ≤ (process_tds_question f b64decode env pythonSetupQ "").links.length := by
  have hnone := (gen_none_of_unconfigured env pythonSetupQ
    (_get_course_context pythonSetupQ) "" henv).1
  have hans : (process_tds_question f b64decode env pythonSetupQ "").answer =
      _intelligent_fallback_answer pythonSetupQ (_get_course_context pythonSetupQ) := by
    show (_format_final_response f
      (_generate_ai_response env pythonSetupQ (_get_course_context pythonSetupQ) "").1
      pythonSetupQ (_get_course_context pythonSetupQ)).answer = _
    rw [hnone]
    rfl
  refine ⟨by decide, by decide, ?_, ?_⟩
  · rw [hans]
    decide
  · show 1 ≤ (_extract_links f (_get_course_context pythonSetupQ) pythonSetupQ).length
    exact (extract_links_facts f hf (_get_course_context pythonSetupQ) pythonSetupQ).1

/-- Witness for C9 at a concrete set order and environment. -/
theorem python_setup_scenario_witness :
    strContains "venv" (process_tds_question dedupFirst (fun _ => none)
      ⟨"", .ok 0, true, 100, .ok ""⟩ pythonSetupQ "").answer = true ∧
    1 ≤ (process_tds_question dedupFirst (fun _ => none)
      ⟨"", .ok 0, true, 100, .ok ""⟩ pythonSetupQ "").links.length :=
  ⟨(python_setup_scenario dedupFirst setOrder_dedupFirst (fun _ => none)
      ⟨"", .ok 0, true, 100, .ok ""⟩ rfl).2.2.1,
   (python_setup_scenario dedupFirst setOrder_dedupFirst (fun _ => none)
      ⟨"", .ok 0, true, 100, .ok ""⟩ rfl).2.2.2⟩

/-! ## C3: truncation of over-long cleaned text -/

theorem getLast?_append_pair (l : List Char) (a b : Char) :
    (l ++ [a, b]).getLast? = some b := by
  rw [show l ++ [a, b] = (l ++ [a]) ++ [b] by simp]
  exact List.getLast?_concat _

/-- Invariant of the sentence-reassembly loop: the accumulator is empty,
or is at most 1002 characters long and ends with the space of an
appended `". "`. -/
theorem truncLoop_bound (ss : List (List Char)) (acc : List Char)
    (hacc : acc = [] ∨ (acc.length ≤ 1002 ∧ acc.getLast? = some ' ')) :
    truncLoop ss acc = [] ∨
      ((truncLoop ss acc).length ≤ 1002 ∧ (truncLoop ss acc).getLast? = some ' ') := by
  induction ss generalizing acc with
  | nil => simpa [truncLoop] using hacc
  | cons s rest ih =>
    rw [truncLoop]
    by_cases hb : 1000 < acc.length + s.length
    · rw [if_pos hb]; exact hacc
    · rw [if_neg hb]
      apply ih
      right
      constructor
      · have hlen2 : (acc ++ s ++ ['.', ' ']).length = acc.length + s.length + 2 := by
          rw [List.length_append, List.length_append]
          rfl
        omega
      · exact getLast?_append_pair _ '.' ' '

theorem pyStrip_length_le (l : List Char) : (pyStrip l).length ≤ l.length := by
  unfold pyStrip stripR stripL
  calc ((l.dropWhile isPySpace).reverse.dropWhile isPySpace).reverse.length
      = ((l.dropWhile isPySpace).reverse.dropWhile isPySpace).length := List.length_reverse _
    _ ≤ (l.dropWhile isPySpace).reverse.length := (List.dropWhile_sublist _).length_le
    _ = (l.dropWhile isPySpace).length := List.length_reverse _
    _ ≤ l.length := (List.dropWhile_sublist _).length_le

/-- A nonempty suffix ends where the whole list ends. -/
theorem getLast?_of_suffix {l s : List Char} (h : s <:+ l) (hne : s ≠ []) :
    l.getLast? = s.getLast? := by
  rcases h with ⟨t, rfl⟩
  exact List.getLast?_append_of_ne_nil t hne

/-- Stripping a list that ends with a space shortens it. -/
theorem pyStrip_length_lt_of_last_space (l : List Char) (h : l.getLast? = some ' ') :
    (pyStrip l).length < l.length := by
  have hlne : l ≠ [] := by
    intro he; subst he; exact Option.noConfusion h
  have hlpos : 0 < l.length := List.length_pos.mpr hlne
  unfold pyStrip stripR
  by_cases hsl : stripL l = []
  · rw [hsl]
    simpa using hlpos
  · have hsuf : stripL l <:+ l := List.dropWhile_suffix _
    have hlast : (stripL l).getLast? = some ' ' := by
      rw [← getLast?_of_suffix hsuf hsl]
      exact h
    obtain ⟨tail, htail⟩ : ∃ tail, (stripL l).reverse = ' ' :: tail := by
      rcases hrv : (stripL l).reverse with - | ⟨d, ds⟩
      · exact absurd (by simpa using congrArg List.reverse hrv) hsl
      · have hd : (stripL l).getLast? = some d := by
          rw [← List.head?_reverse, hrv]; rfl
        rw [hlast] at hd
        cases hd
        exact ⟨ds, rfl⟩
    have hdw : ((stripL l).reverse.dropWhile isPySpace).length ≤ tail.length := by
      rw [htail, List.dropWhile_cons_of_pos (by decide)]
      exact (List.dropWhile_sublist _).length_le
    have htl : tail.length + 1 = (stripL l).length := by
      have h5 := congrArg List.length htail
      rw [List.length_reverse] at h5
      simp at h5
      omega
    have hsll : (stripL l).length ≤ l.length := (List.dropWhile_sublist _).length_le
    calc ((stripL l).reverse.dropWhile isPySpace).reverse.length
        = ((stripL l).reverse.dropWhile isPySpace).length := List.length_reverse _
      _ ≤ tail.length := hdw
      _ < (stripL l).length := by omega
      _ ≤ l.length := hsll

/-- When the collapsed text is long, `cleanedOf` is the stripped loop
output. -/
theorem cleanedOf_long (text : String) (h : 1200 < (normWS text.data).length) :
    cleanedOf text = pyStrip (truncLoop (splitDotSpace (normWS text.data)) []) := by
  unfold cleanedOf
  rw [if_pos h]

/-- C3 amended.  For every input whose whitespace-collapsed trimmed form
exceeds 1200 characters, cleaning returns at most 1001 characters (not
1000: the loop appends `". "` after checking the 1000 bound against the
bare sentence, and the final strip removes only the trailing space), and
when the first sentence alone exceeds the 1000-character bound the loop
keeps nothing and the fixed "unable to generate" message is returned. -/
theorem clean_text_long_bound (text : String) (h : 1200 < (normWS text.data).length) :
    (_clean_text text).length ≤ 1001 ∧
    (∀ s rest, splitDotSpace (normWS text.data) = s :: rest → 1000 < s.length →
      _clean_text text = "Unable to generate a proper response.") := by
  have htne : text ≠ "" := by
    intro he
    subst he
    exact absurd h (by decide)
  have hct : _clean_text text =
      if cleanedOf text = [] then "Unable to generate a proper response."
      else String.mk (cleanedOf text) := by
    unfold _clean_text
    rw [if_neg htne]
  constructor
  · rw [hct]
    by_cases hemp : cleanedOf text = []
    · rw [if_pos hemp]; decide
    · rw [if_neg hemp]
      show (cleanedOf text).length ≤ 1001
      rw [cleanedOf_long text h]
      rcases truncLoop_bound (splitDotSpace (normWS text.data)) [] (Or.inl rfl) with ht | ⟨hlen, hlast⟩
      · rw [ht]; decide
      · have := pyStrip_length_lt_of_last_space _ hlast
        omega
  · intro s rest hsplit hs
    rw [hct, cleanedOf_long text h, hsplit]
    rw [show truncLoop (s :: rest) [] = [] by
      rw [truncLoop, if_pos (by simpa using hs)]]
    rfl

/-- C3 counterexample.  `longText` collapses to more than 1200
characters, yet cleaning returns 1001 characters — more than the 1000
the claim allows: the loop keeps the 1000-character first sentence, adds
`". "`, and the final strip only removes the trailing space. -/
theorem clean_text_exceeds_1000 :
    1200 < (normWS longText.data).length ∧
    (_clean_text longText).length = 1001 ∧
    ¬((_clean_text longText).length ≤ 1000) := by
  have h2 : (_clean_text longText).length = 1001 := by decide
  exact ⟨by decide, h2, by rw [h2]; decide⟩

/-- Witness for C3 (amended): the 1001-character bound at `longText`,
and the fixed message when no sentence fits under the cap. -/
theorem clean_text_long_bound_witness :
    (_clean_text longText).length ≤ 1001 ∧
    _clean_text longNoBoundary = "Unable to generate a proper response." :=
  ⟨(clean_text_long_bound longText (by decide)).1,
   (clean_text_long_bound longNoBoundary (by decide)).2 (List.replicate 1005 'a')
     [List.replicate 200 'b'] (by decide) (by rw [List.length_replicate]; decide)⟩

/-! ## C8: cleaning is idempotent.  A cleaned string is *normalised*:
every whitespace character in it is a plain space, no two whitespace
characters are adjacent, and it neither starts nor ends with whitespace;
on a normalised string of length at most 1200 the cleaner is the
identity. -/

theorem allWsSpace_of_subset {l m : List Char} (h : AllWsSpace m) (hs : l ⊆ m) :
    AllWsSpace l := fun c hc => h c (hs hc)

theorem allWsSpace_cons {c : Char} {l : List Char} (h : AllWsSpace (c :: l)) :
    AllWsSpace l := allWsSpace_of_subset h (List.subset_cons_self c l)

theorem noWsPair_cons {c : Char} {l : List Char} (h : NoWsPair (c :: l)) : NoWsPair l :=
  List.Chain'.tail h

theorem noWsPair_reverse {l : List Char} (h : NoWsPair l) : NoWsPair l.reverse := by
  rw [NoWsPair, List.chain'_reverse]
  exact h.imp fun a b hab hba => hab ⟨hba.2, hba.1⟩

/-- The outputs of `collapseAux` only use plain spaces for whitespace. -/
theorem collapseAux_allWs : ∀ (l : List Char) (b : Bool), AllWsSpace (collapseAux b l) := by
  intro l
  induction l with
  | nil => intro b c hc; simp [collapseAux] at hc
  | cons c rest ih =>
    intro b d hd hws
    rw [collapseAux] at hd
    by_cases hc : isPySpace c = true
    · rw [if_pos hc] at hd
      cases b with
      | true => exact ih true d hd hws
      | false =>
        simp only [if_neg, Bool.false_eq_true, if_false] at hd
        rcases List.mem_cons.mp hd with rfl | hd2
        · rfl
        · exact ih true d hd2 hws
    · rw [if_neg hc] at hd
      rcases List.mem_cons.mp hd with rfl | hd2
      · exact absurd hws hc
      · exact ih false d hd2 hws

/-- `collapseAux true` swallows leading whitespace: its head is never
whitespace. -/
theorem collapseAux_true_head : ∀ l : List Char, HeadNonWs (collapseAux true l) := by
  intro l
  induction l with
  | nil => intro c hc; simp [collapseAux] at hc
  | cons c rest ih =>
    intro d hd
    rw [collapseAux] at hd
    by_cases hc : isPySpace c = true
    · rw [if_pos hc, if_pos rfl] at hd
      exact ih d hd
    · rw [if_neg hc] at hd
      injection hd with h2
      subst h2
      exact Bool.not_eq_true _ |>.mp hc

/-- A non-whitespace head survives `collapseAux` unchanged. -/
theorem collapseAux_head_of_head (l : List Char) (b : Bool) (c : Char)
    (hc : l.head? = some c) (hws : isPySpace c = false) :
    (collapseAux b l).head? = some c := by
  rcases l with - | ⟨d, rest⟩
  · exact absurd hc (by simp)
  · injection hc with h2
    subst h2
    rw [collapseAux, if_neg (by rw [hws]; exact Bool.false_ne_true)]
    rfl

/-- `collapseAux` never leaves two adjacent whitespace characters. -/
theorem collapseAux_chain : ∀ (l : List Char) (b : Bool), NoWsPair (collapseAux b l) := by
  intro l
  induction l with
  | nil => intro b; simp [collapseAux, NoWsPair]
  | cons c rest ih =>
    intro b
    rw [collapseAux]
    by_cases hc : isPySpace c = true
    · rw [if_pos hc]
      cases b with
      | true => exact ih true
      | false =>
        simp only [Bool.false_eq_true, if_false]
        rw [NoWsPair, List.chain'_cons']
        refine ⟨fun y hy => ?_, ih true⟩
        have := collapseAux_true_head rest y hy
        intro hand
        rw [this] at hand
        exact Bool.false_ne_true hand.2
    · rw [if_neg hc]
      rw [NoWsPair, List.chain'_cons']
      refine ⟨fun y hy => ?_, ih false⟩
      intro hand
      exact hc hand.1

theorem getLast?_cons_of_ne_nil {c : Char} {l : List Char} (h : l ≠ []) :
    (c :: l).getLast? = l.getLast? := by
  rcases l with - | ⟨d, rest⟩
  · exact absurd rfl h
  · exact List.getLast?_cons_cons

/-- A non-whitespace last character survives `collapseAux` unchanged. -/
theorem collapseAux_last : ∀ (l : List Char) (b : Bool) (c : Char),
    l.getLast? = some c → isPySpace c = false →
    (collapseAux b l).getLast? = some c := by
  intro l
  induction l with
  | nil => intro b c hc _; exact absurd hc (by simp)
  | cons d rest ih =>
    intro b c hc hws
    by_cases hre : rest = []
    · subst hre
      have hdc : d = c := by simpa using hc
      subst hdc
      rw [collapseAux, if_neg (by rw [hws]; exact Bool.false_ne_true)]
      rfl
    · have hrest : rest.getLast? = some c := by
        rw [← getLast?_cons_of_ne_nil hre]
        exact hc
      have hne2 : collapseAux true rest ≠ [] := by
        intro he
        have h6 := ih true c hrest hws
        rw [he] at h6
        exact Option.noConfusion h6
      rw [collapseAux]
      by_cases hd : isPySpace d = true
      · rw [if_pos hd]
        cases b with
        | true => exact ih true c hrest hws
        | false =>
          simp only [Bool.false_eq_true, if_false]
          rw [getLast?_cons_of_ne_nil hne2]
          exact ih true c hrest hws
      · rw [if_neg hd]
        have hne3 : collapseAux false rest ≠ [] := by
          intro he
          have h6 := ih false c hrest hws
          rw [he] at h6
          exact Option.noConfusion h6
        rw [getLast?_cons_of_ne_nil hne3]
        exact ih false c hrest hws

/-- The flag does not matter once the head is not whitespace. -/
theorem collapseAux_true_eq_false_of_head (l : List Char) (h : HeadNonWs l) :
    collapseAux true l = collapseAux false l := by
  rcases l with - | ⟨c, rest⟩
  · rfl
  · have hc := h c rfl
    rw [collapseAux, collapseAux, if_neg (by rw [hc]; exact Bool.false_ne_true),
      if_neg (by rw [hc]; exact Bool.false_ne_true)]

/-- On a normalised-body list with a non-whitespace head, `collapseAux`
is the identity. -/
theorem collapseAux_fix : ∀ (n : Nat) (l : List Char), l.length ≤ n →
    AllWsSpace l → NoWsPair l → HeadNonWs l → collapseAux false l = l := by
  intro n
  induction n with
  | zero =>
    intro l hl _ _ _
    have : l = [] := List.length_eq_zero.mp (Nat.le_zero.mp hl)
    subst this
    rfl
  | succ n ihn =>
    intro l hl hA hC hH
    rcases l with - | ⟨c, rest⟩
    · rfl
    · have hcws : isPySpace c = false := hH c rfl
      rw [collapseAux, if_neg (by rw [hcws]; exact Bool.false_ne_true)]
      congr 1
      rcases rest with - | ⟨d, rest2⟩
      · rfl
      · by_cases hd : isPySpace d = true
        · have hdsp : d = ' ' := hA d (by simp) hd
          subst hdsp
          rw [collapseAux, if_pos hd]
          simp only [Bool.false_eq_true, if_false]
          congr 1
          have hH2 : HeadNonWs rest2 := by
            intro e he
            rcases rest2 with - | ⟨f, rest3⟩
            · exact absurd he (by simp)
            · injection he with h7
              subst h7
              have hch := (List.chain'_cons.mp (noWsPair_cons hC)).1
              by_contra hcon
              rw [Bool.not_eq_false] at hcon
              exact hch ⟨hd, hcon⟩
          rw [collapseAux_true_eq_false_of_head rest2 hH2]
          refine ihn rest2 ?_ (allWsSpace_cons (allWsSpace_cons hA))
            (noWsPair_cons (noWsPair_cons hC)) hH2
          simp only [List.length_cons] at hl ⊢
          omega
        · refine ihn (d :: rest2) ?_ (allWsSpace_cons hA) (noWsPair_cons hC)
            (fun e he => ?_)
          · simp only [List.length_cons] at hl ⊢
            omega
          · injection he with h7
            subst h7
            simpa using hd

/-- The head of a `dropWhile` output never satisfies the predicate. -/
theorem dropWhile_head_not (p : Char → Bool) : ∀ (l : List Char) (c : Char),
    (l.dropWhile p).head? = some c → p c = false := by
  intro l
  induction l with
  | nil => intro c hc; simp at hc
  | cons d rest ih =>
    intro c hc
    by_cases hd : p d = true
    · rw [List.dropWhile_cons_of_pos hd] at hc
      exact ih c hc
    · rw [List.dropWhile_cons_of_neg hd] at hc
      injection hc with h2
      subst h2
      simpa using hd

theorem stripR_isPrefix (l : List Char) : stripR l <+: l := by
  unfold stripR
  rcases List.dropWhile_suffix (l := l.reverse) (p := isPySpace) with ⟨t, ht⟩
  refine ⟨t.reverse, ?_⟩
  have h2 := congrArg List.reverse ht
  rw [List.reverse_append] at h2
  simpa using h2

theorem head?_of_prefix {l s : List Char} (h : s <+: l) (hne : s ≠ []) :
    l.head? = s.head? := by
  rcases h with ⟨t, rfl⟩
  rcases s with - | ⟨c, cs⟩
  · exact absurd rfl hne
  · rfl

theorem pyStrip_headNonWs (l : List Char) : HeadNonWs (pyStrip l) := by
  intro c hc
  have hne : stripR (stripL l) ≠ [] := by
    intro he
    rw [pyStrip, he] at hc
    exact Option.noConfusion hc
  have hh : (stripL l).head? = (stripR (stripL l)).head? :=
    head?_of_prefix (stripR_isPrefix _) hne
  apply dropWhile_head_not isPySpace l c
  show (stripL l).head? = some c
  rw [hh]
  exact hc

theorem pyStrip_lastNonWs (l : List Char) : LastNonWs (pyStrip l) := by
  intro c hc
  unfold pyStrip stripR at hc
  rw [List.getLast?_reverse] at hc
  exact dropWhile_head_not isPySpace _ c hc

theorem pyStrip_subset (l : List Char) : pyStrip l ⊆ l := by
  intro c hc
  unfold pyStrip stripR stripL at hc
  have h1 := List.mem_reverse.mp hc
  have h2 := (List.dropWhile_sublist _).subset h1
  have h3 := List.mem_reverse.mp h2
  exact (List.dropWhile_sublist _).subset h3

theorem pyStrip_allWs {l : List Char} (h : AllWsSpace l) : AllWsSpace (pyStrip l) :=
  allWsSpace_of_subset h (pyStrip_subset l)

theorem pyStrip_noWsPair {l : List Char} (h : NoWsPair l) : NoWsPair (pyStrip l) := by
  show List.Chain' _ (stripR (stripL l))
  unfold stripR stripL
  apply noWsPair_reverse
  apply List.Chain'.suffix _ (List.dropWhile_suffix _)
  apply noWsPair_reverse
  exact List.Chain'.suffix h (List.dropWhile_suffix _)

theorem stripL_eq_self {l : List Char} (h : HeadNonWs l) : stripL l = l := by
  rcases l with - | ⟨c, rest⟩
  · rfl
  · exact List.dropWhile_cons_of_neg (by rw [h c rfl]; exact Bool.false_ne_true)

theorem stripR_eq_self {l : List Char} (h : LastNonWs l) : stripR l = l := by
  unfold stripR
  have h3 : l.reverse.dropWhile isPySpace = l.reverse := by
    rcases hr : l.reverse with - | ⟨c, cs⟩
    · rfl
    · have hc : l.getLast? = some c := by
        rw [← List.head?_reverse, hr]
        rfl
      exact List.dropWhile_cons_of_neg (by rw [h c hc]; exact Bool.false_ne_true)
  rw [h3, List.reverse_reverse]

theorem pyStrip_eq_self {l : List Char} (hh : HeadNonWs l) (hl : LastNonWs l) :
    pyStrip l = l := by
  unfold pyStrip
  rw [stripL_eq_self hh, stripR_eq_self hl]

/-- `normWS` always produces a normalised list. -/
theorem normWS_normed (l : List Char) : Normed (normWS l) := by
  refine ⟨collapseAux_allWs _ _, collapseAux_chain _ _, ?_, ?_⟩
  · intro c hc
    rcases hp : pyStrip l with - | ⟨d, rest⟩
    · rw [normWS, hp] at hc
      simp [collapseAux] at hc
    · have hd : isPySpace d = false := pyStrip_headNonWs l d (by rw [hp]; rfl)
      rw [normWS, hp] at hc
      rw [collapseAux_head_of_head (d :: rest) false d rfl hd] at hc
      injection hc with h2
      subst h2
      exact hd
  · intro c hc
    rcases hgl : (pyStrip l).getLast? with - | e
    · have : pyStrip l = [] := List.getLast?_eq_none_iff.mp hgl
      rw [normWS, this] at hc
      simp [collapseAux] at hc
    · have he : isPySpace e = false := pyStrip_lastNonWs l e hgl
      rw [normWS, collapseAux_last (pyStrip l) false e hgl he] at hc
      injection hc with h2
      subst h2
      exact he

/-- On a normalised list, `normWS` is the identity. -/
theorem normWS_eq_self {l : List Char} (h : Normed l) : normWS l = l := by
  obtain ⟨hA, hC, hH, hL⟩ := h
  rw [normWS, pyStrip_eq_self hH hL]
  exact collapseAux_fix l.length l le_rfl hA hC hH

theorem splitDotSpace_sep (rest : List Char) :
    splitDotSpace ('.' :: ' ' :: rest) = [] :: splitDotSpace rest := rfl

theorem splitDotSpace_cons_not_sep (c : Char) (rest : List Char)
    (h : c ≠ '.' ∨ rest.head? ≠ some ' ') :
    splitDotSpace (c :: rest) =
      match splitDotSpace rest with
      | [] => [[c]]
      | p :: ps => (c :: p) :: ps := by
  rw [splitDotSpace.eq_def]
  split
  · next heq => exact absurd heq (List.cons_ne_nil _ _)
  · next r heq =>
    exfalso
    injection heq with h1 h2
    subst h1
    rcases h with h3 | h3
    · exact h3 rfl
    · rw [h2] at h3
      exact h3 rfl
  · next c2 r2 hne heq =>
    injection heq with h1 h2
    subst h1
    subst h2
    rfl

/-- The pieces Python's `split('. ')` produces from a list whose body is
normalised: each piece has a normalised body, every piece after the
first starts with a non-whitespace character (it follows the space of a
separator), and the first piece starts where the input starts. -/
theorem splitDotSpace_props : ∀ (n : Nat) (l : List Char), l.length ≤ n →
    AllWsSpace l → NoWsPair l →
    (∀ p ∈ splitDotSpace l, AllWsSpace p ∧ NoWsPair p) ∧
    (∀ p ∈ (splitDotSpace l).tail, HeadNonWs p) ∧
    (∀ p c, (splitDotSpace l).head? = some p → p.head? = some c → l.head? = some c) := by
  intro n
  induction n with
  | zero =>
    intro l hl _ _
    have : l = [] := List.length_eq_zero.mp (Nat.le_zero.mp hl)
    subst this
    refine ⟨?_, by simp [splitDotSpace], ?_⟩
    · intro p hp
      rw [show splitDotSpace [] = [[]] from rfl] at hp
      rcases List.mem_singleton.mp hp with rfl
      exact ⟨fun c hc => absurd hc (List.not_mem_nil c), List.chain'_nil⟩
    · intro p c hp hc
      rw [show splitDotSpace [] = [[]] from rfl] at hp
      injection hp with h2
      subst h2
      exact absurd hc (by simp)
  | succ n ihn =>
    intro l hl hA hC
    rcases l with - | ⟨c, rest⟩
    · exact ihn [] (Nat.zero_le n) hA hC
    · by_cases hsep : c = '.' ∧ rest.head? = some ' '
      · obtain ⟨hc, hh⟩ := hsep
        subst hc
        rcases rest with - | ⟨d, rest2⟩
        · exact absurd hh (by simp)
        · injection hh with hd
          subst hd
          rw [splitDotSpace_sep]
          have hA2 : AllWsSpace rest2 := allWsSpace_cons (allWsSpace_cons hA)
          have hC2 : NoWsPair rest2 := noWsPair_cons (noWsPair_cons hC)
          have hlen : rest2.length ≤ n := by
            simp only [List.length_cons] at hl
            omega
          obtain ⟨ih1, ih2, ih3⟩ := ihn rest2 hlen hA2 hC2
          have hH2 : HeadNonWs rest2 := by
            intro e he
            rcases rest2 with - | ⟨f, rest3⟩
            · exact absurd he (by simp)
            · injection he with h7
              subst h7
              have hch := (List.chain'_cons.mp (noWsPair_cons hC)).1
              by_contra hcon
              rw [Bool.not_eq_false] at hcon
              exact hch ⟨rfl, hcon⟩
          refine ⟨?_, ?_, ?_⟩
          · intro p hp
            rcases List.mem_cons.mp hp with rfl | hp2
            · exact ⟨fun e he => absurd he (List.not_mem_nil e), List.chain'_nil⟩
            · exact ih1 p hp2
          · intro p hp
            rw [List.tail_cons] at hp
            rcases hq : splitDotSpace rest2 with - | ⟨p0, ps⟩
            · rw [hq] at hp
              exact absurd hp (List.not_mem_nil p)
            · rw [hq] at hp
              rcases List.mem_cons.mp hp with rfl | hp2
              · intro e he
                apply hH2
                apply ih3 p e _ he
                rw [hq]
                rfl
              · apply ih2
                rw [hq]
                exact hp2
          · intro p e hp he
            injection hp with h7
            subst h7
            exact absurd he (by simp)
      · have hns : c ≠ '.' ∨ rest.head? ≠ some ' ' := by
          by_cases h1 : c = '.'
          · right
            intro h2
            exact hsep ⟨h1, h2⟩
          · exact Or.inl h1
        have hA2 : AllWsSpace rest := allWsSpace_cons hA
        have hC2 : NoWsPair rest := noWsPair_cons hC
        have hlen : rest.length ≤ n := by
          simp only [List.length_cons] at hl
          omega
        obtain ⟨ih1, ih2, ih3⟩ := ihn rest hlen hA2 hC2
        rw [splitDotSpace_cons_not_sep c rest hns]
        rcases hq : splitDotSpace rest with - | ⟨p0, ps⟩
        · refine ⟨?_, by simp, ?_⟩
          · intro p hp
            rcases List.mem_singleton.mp hp with rfl
            refine ⟨?_, List.chain'_singleton c⟩
            intro e he hws
            rcases List.mem_singleton.mp he with rfl
            exact hA e (List.mem_cons_self _ _) hws
          · intro p e hp he
            injection hp with h7
            subst h7
            injection he with h8
            subst h8
            rfl
        · refine ⟨?_, ?_, ?_⟩
          · intro p hp
            rcases List.mem_cons.mp hp with rfl | hp2
            · constructor
              · intro e he hws
                rcases List.mem_cons.mp he with rfl | he2
                · exact hA e (List.mem_cons_self _ _) hws
                · exact (ih1 p0 (by rw [hq]; exact List.mem_cons_self _ _)).1 e he2 hws
              · rw [NoWsPair, List.chain'_cons']
                refine ⟨?_, (ih1 p0 (by rw [hq]; exact List.mem_cons_self _ _)).2⟩
                intro y hy
                have hresty : rest.head? = some y := by
                  apply ih3 p0 y _ hy
                  rw [hq]
                  rfl
                have := (List.chain'_cons'.mp hC).1 y hresty
                exact this
            · exact ih1 p (by rw [hq]; exact List.mem_cons_of_mem p0 hp2)
          · intro p hp
            rw [List.tail_cons] at hp
            apply ih2
            rw [hq]
            exact hp
          · intro p e hp he
            injection hp with h7
            subst h7
            injection he with h8
            subst h8
            rfl

/-- The loop output keeps a normalised body: pieces are normalised and
start with non-whitespace, the separator `". "` never creates a
whitespace pair. -/
theorem truncLoop_props : ∀ (ss : List (List Char)),
    (∀ p ∈ ss, AllWsSpace p ∧ NoWsPair p ∧ HeadNonWs p) →
    ∀ acc, AllWsSpace acc → NoWsPair acc → (acc = [] ∨ acc.getLast? = some ' ') →
    AllWsSpace (truncLoop ss acc) ∧ NoWsPair (truncLoop ss acc) := by
  intro ss
  induction ss with
  | nil =>
    intro _ acc hA hC _
    rw [truncLoop]
    exact ⟨hA, hC⟩
  | cons s rest ih =>
    intro hss acc hA hC hL
    rw [truncLoop]
    by_cases hb : 1000 < acc.length + s.length
    · rw [if_pos hb]
      exact ⟨hA, hC⟩
    · rw [if_neg hb]
      obtain ⟨hsA, hsC, hsH⟩ := hss s (List.mem_cons_self _ _)
      have hccA : AllWsSpace (acc ++ s ++ ['.', ' ']) := by
        intro e he hws
        rcases List.mem_append.mp he with he1 | he2
        · rcases List.mem_append.mp he1 with ha | hs2
          · exact hA e ha hws
          · exact hsA e hs2 hws
        · rcases List.mem_cons.mp he2 with rfl | he3
          · exact absurd hws (by decide)
          · rcases List.mem_singleton.mp he3 with rfl
            rfl
      have haccs : NoWsPair (acc ++ s) := by
        rw [NoWsPair, List.chain'_append]
        refine ⟨hC, hsC, ?_⟩
        intro x hx y hy
        rw [Option.mem_def] at hy
        have hyws := hsH y hy
        intro hand
        rw [hyws] at hand
        exact Bool.false_ne_true hand.2
      have hccC : NoWsPair (acc ++ s ++ ['.', ' ']) := by
        rw [NoWsPair, List.chain'_append]
        refine ⟨haccs, by rw [List.chain'_pair]; decide, ?_⟩
        intro x hx y hy
        rw [Option.mem_def] at hy
        injection hy with h7
        subst h7
        intro hand
        exact Bool.false_ne_true hand.2
      exact ih (fun p hp => hss p (List.mem_cons_of_mem _ hp)) _ hccA hccC
        (Or.inr (getLast?_append_pair _ '.' ' '))

/-- `cleanedOf` always produces a normalised list: the short branch by
`normWS_normed`, the long branch because the loop joins normalised
pieces with `". "` and the final strip fixes the boundaries. -/
theorem cleanedOf_normed (t : String) : Normed (cleanedOf t) := by
  unfold cleanedOf
  by_cases h : 1200 < (normWS t.data).length
  · rw [if_pos h]
    obtain ⟨hA, hC, hH, -⟩ := normWS_normed t.data
    obtain ⟨hp1, hpt, hp3⟩ :=
      splitDotSpace_props (normWS t.data).length (normWS t.data) le_rfl hA hC
    have hall : ∀ p ∈ splitDotSpace (normWS t.data),
        AllWsSpace p ∧ NoWsPair p ∧ HeadNonWs p := by
      intro p hp
      refine ⟨(hp1 p hp).1, (hp1 p hp).2, ?_⟩
      rcases hq : splitDotSpace (normWS t.data) with - | ⟨p0, ps⟩
      · rw [hq] at hp
        exact absurd hp (List.not_mem_nil p)
      · rw [hq] at hp
        rcases List.mem_cons.mp hp with rfl | hp2
        · intro e he
          apply hH
          apply hp3 p e _ he
          rw [hq]
          rfl
        · apply hpt
          rw [hq]
          exact hp2
    have hbody := truncLoop_props (splitDotSpace (normWS t.data)) hall []
      (fun c hc => absurd hc (List.not_mem_nil c)) List.chain'_nil (Or.inl rfl)
    exact ⟨pyStrip_allWs hbody.1, pyStrip_noWsPair hbody.2,
      pyStrip_headNonWs _, pyStrip_lastNonWs _⟩
  · rw [if_neg h]
    exact normWS_normed t.data

/-- The cleaner's output never exceeds 1200 characters. -/
theorem cleanedOf_length_le (t : String) : (cleanedOf t).length ≤ 1200 := by
  unfold cleanedOf
  by_cases h : 1200 < (normWS t.data).length
  · rw [if_pos h]
    rcases truncLoop_bound (splitDotSpace (normWS t.data)) [] (Or.inl rfl) with ht | ⟨hlen, hlast⟩
    · rw [ht]
      decide
    · have := pyStrip_length_lt_of_last_space _ hlast
      omega
  · rw [if_neg h]
    omega

theorem noWsPair_of_noWsPairB : ∀ l, noWsPairB l = true → NoWsPair l := by
  intro l
  induction l with
  | nil => intro _; exact List.chain'_nil
  | cons a rest ih =>
    intro h
    rcases rest with - | ⟨b, rest2⟩
    · exact List.chain'_singleton a
    · rw [noWsPairB] at h
      rcases (Bool.and_eq_true _ _).mp h with ⟨h1, h2⟩
      rw [NoWsPair, List.chain'_cons]
      refine ⟨?_, ih h2⟩
      intro hand
      rw [hand.1, hand.2] at h1
      simp at h1

/-- The fixed message is itself a normalised string. -/
theorem normed_unable_msg : Normed ("Unable to generate a proper response.").data := by
  refine ⟨by unfold AllWsSpace; decide, noWsPair_of_noWsPairB _ (by decide), ?_, ?_⟩
  · intro c hc
    rw [show ("Unable to generate a proper response.").data.head? = some 'U' from rfl] at hc
    injection hc with h2
    subst h2
    decide
  · intro c hc
    rw [show ("Unable to generate a proper response.").data.getLast? = some '.' from rfl] at hc
    injection hc with h2
    subst h2
    decide

/-- On a non-empty normalised string of at most 1200 characters the
cleaner is the identity. -/
theorem clean_text_of_normed (y : String) (hy : y ≠ "") (hnorm : Normed y.data)
    (hlen : y.data.length ≤ 1200) : _clean_text y = y := by
  unfold _clean_text
  rw [if_neg hy]
  have hcl : cleanedOf y = y.data := by
    unfold cleanedOf
    rw [normWS_eq_self hnorm, if_neg (by omega)]
  rw [hcl]
  rw [if_neg (fun he => hy (congrArg String.mk he))]

/-- `_clean_text` returns the fixed message or the non-empty cleaned
list. -/
theorem clean_text_result (x : String) :
    _clean_text x = "Unable to generate a proper response." ∨
    (cleanedOf x ≠ [] ∧ _clean_text x = String.mk (cleanedOf x)) := by
  unfold _clean_text
  by_cases hx : x = ""
  · rw [if_pos hx]
    exact Or.inl rfl
  · rw [if_neg hx]
    by_cases he : cleanedOf x = []
    · rw [if_pos he]
      exact Or.inl rfl
    · rw [if_neg he]
      exact Or.inr ⟨he, rfl⟩

/-- C8.  Cleaning is idempotent: for every string, cleaning the
cleaner's own output returns that output unchanged — the output is
either the fixed message or a normalised string of at most 1200
characters, and on both the cleaner is the identity. -/
theorem clean_text_idempotent (x : String) :
    _clean_text (_clean_text x) = _clean_text x := by
  rcases clean_text_result x with h | ⟨hne, h⟩
  · rw [h]
    exact clean_text_of_normed _ (by decide) normed_unable_msg (by decide)
  · rw [h]
    apply clean_text_of_normed
    · exact string_mk_ne_empty hne
    · exact cleanedOf_normed x
    · exact cleanedOf_length_le x

end VirtualTA
